import Mathlib

set_option maxRecDepth 100000
set_option maxHeartbeats 1000000

/-!
Verification development for the pbxproj-synchronization scripts of the
document-ai-swift repository.  The manifest text is modelled as `List Char`;
the Python string operations (`find`, slicing, `replace`, `os.path.basename`)
are embedded as executable Lean functions, and the five scripts' main flows
are embedded as pure state transformers over a small file-system record.
-/

namespace DocAI

/-- Model of `os.path.basename`: the part of the path after the last `'/'`. -/
def basename (l : List Char) : List Char :=
  ((l.reverse.takeWhile (fun c => c ≠ '/')).reverse)

/-- Tail-recursive scanner behind `findSubstr` (the accumulator keeps the
kernel stack shallow when evaluating on concrete manifests). -/
def findSubstrGo (p : List Char) : Nat → List Char → Option Nat
  | k, [] => if p.isPrefixOf ([] : List Char) then some k else none
  | k, c :: t => if p.isPrefixOf (c :: t) then some k else findSubstrGo p (k + 1) t

/-- Model of Python `str.find(pat)`: index of the first occurrence of `p`
in `l`, or `none` when `p` does not occur (Python returns `-1`). -/
def findSubstr (p l : List Char) : Option Nat := findSubstrGo p 0 l

theorem findSubstrGo_shift (p : List Char) :
    ∀ (k : Nat) (l : List Char), findSubstrGo p k l = (findSubstrGo p 0 l).map (· + k) := by
  intro k l
  induction l generalizing k with
  | nil =>
    rw [findSubstrGo, findSubstrGo]
    split <;> simp
  | cons c t ih =>
    rw [findSubstrGo, findSubstrGo]
    split
    · simp
    · rw [ih (k + 1), ih 1]
      cases findSubstrGo p 0 t with
      | none => simp
      | some v => simp; omega

theorem findSubstr_nil (p : List Char) :
    findSubstr p [] = if p.isPrefixOf ([] : List Char) then some 0 else none := rfl

theorem findSubstr_cons (p : List Char) (c : Char) (t : List Char) :
    findSubstr p (c :: t) =
      if p.isPrefixOf (c :: t) then some 0 else (findSubstr p t).map (· + 1) := by
  rw [findSubstr, findSubstrGo]
  split
  · rfl
  · rw [findSubstrGo_shift p 1 t]
    rfl

/-- Model of Python `str.find(pat, start)`: search in `l[start:]`,
reporting an absolute index. -/
def findFrom (p l : List Char) (start : Nat) : Option Nat :=
  (findSubstr p (l.drop start)).map (· + start)

/-- Fuel-indexed worker for `replaceAll` (structural recursion so that the
kernel can evaluate it on concrete inputs). -/
def replaceAllGo (p r : List Char) : Nat → List Char → List Char
  | 0, l => l
  | _ + 1, [] => []
  | fuel + 1, c :: t =>
    if p.isPrefixOf (c :: t) ∧ p ≠ [] then
      r ++ replaceAllGo p r fuel (t.drop (p.length - 1))
    else
      c :: replaceAllGo p r fuel t

/-- Model of Python `str.replace(old, new)`: replace every non-overlapping
occurrence of `p` by `r`, scanning left to right. -/
def replaceAll (p r l : List Char) : List Char :=
  replaceAllGo p r l.length l

/-- One record of the `file_refs` dictionary built by
`add_files_to_pbxproj` (a file-reference identifier, a build-file
identifier and the file's base name). -/
structure Info where
  refUuid : List Char
  buildUuid : List Char
  name : List Char
deriving DecidableEq

/-- Python dict assignment `d[k] = v`: overwrite in place when the key is
present, append otherwise (insertion order preserved). -/
def upsert (k : List Char) (v : Info) : List ((List Char) × Info) → List ((List Char) × Info)
  | [] => [(k, v)]
  | (k', v') :: rest => if k' = k then (k, v) :: rest else (k', v') :: upsert k v rest

/-- The identifier-allocating loop of `add_files_to_pbxproj` (lines 20-29):
for each file two fresh tokens are drawn from the random source `toks`
(modelling `uuid.uuid4().hex[:24].upper()`), and the dictionary entry for the
file is written.  Returns the dictionary together with the allocation trace
(every token drawn, in drawing order). -/
def mkRefsGo (toks : Nat → List Char) :
    List (List Char) → Nat → List ((List Char) × Info) → List (List Char) →
    (List ((List Char) × Info)) × List (List Char)
  | [], _, acc, tr => (acc, tr)
  | f :: fs, k, acc, tr =>
    let info : Info := ⟨toks k, toks (k + 1), basename f⟩
    mkRefsGo toks fs (k + 2) (upsert f info acc) (tr ++ [toks k, toks (k + 1)])

/-- The `file_refs` dictionary and the allocation trace for a run. -/
def mkRefs (files : List (List Char)) (toks : Nat → List Char) :
    (List ((List Char) × Info)) × List (List Char) :=
  mkRefsGo toks files 0 [] []

/-- The PBXBuildFile entry line generated for one file (line 42). -/
def buildLine (i : Info) : List Char :=
  ("\t\t".data) ++ i.buildUuid ++ " /* ".data ++ i.name ++
    " in Sources */ = \x7bisa = PBXBuildFile; fileRef = ".data ++ i.refUuid ++
    " /* ".data ++ i.name ++ " */; \x7d;\n".data

/-- The PBXFileReference entry line generated for one file (line 61);
note that both the display name and the `path` field are the base name. -/
def refLine (i : Info) : List Char :=
  ("\t\t".data) ++ i.refUuid ++ " /* ".data ++ i.name ++
    " */ = \x7bisa = PBXFileReference; lastKnownFileType = sourcecode.swift; path = ".data ++
    i.name ++ "; sourceTree = \"<group>\"; \x7d;\n".data

/-- The membership (sources build phase) entry line generated for one file
(line 87). -/
def srcLine (i : Info) : List Char :=
  ("\t\t\t\t".data) ++ i.buildUuid ++ " /* ".data ++ i.name ++ " in Sources */,\n".data

/-- Marker: begin of the PBXBuildFile section. -/
def bBF : List Char := "/* Begin PBXBuildFile section */".data
/-- Marker: end of the PBXBuildFile section. -/
def eBF : List Char := "/* End PBXBuildFile section */".data
/-- Marker: begin of the PBXFileReference section. -/
def bFR : List Char := "/* Begin PBXFileReference section */".data
/-- Marker: end of the PBXFileReference section. -/
def eFR : List Char := "/* End PBXFileReference section */".data
/-- Marker: begin of the PBXSourcesBuildPhase section. -/
def bSP : List Char := "/* Begin PBXSourcesBuildPhase section */".data
/-- Marker: end of the PBXSourcesBuildPhase section. -/
def eSP : List Char := "/* End PBXSourcesBuildPhase section */".data
/-- Marker: opening of the files array inside PBXSourcesBuildPhase. -/
def fArr : List Char := "files = (".data
/-- Marker: terminator of the files array. -/
def clArr : List Char := ");".data

/-- The block of PBXBuildFile entries inserted in one run. -/
def blockB (refs : List ((List Char) × Info)) : List Char :=
  (refs.map (fun kv => buildLine kv.2)).flatten

/-- The block of PBXFileReference entries inserted in one run. -/
def blockR (refs : List ((List Char) × Info)) : List Char :=
  (refs.map (fun kv => refLine kv.2)).flatten

/-- The block of membership entries inserted in one run. -/
def blockS (refs : List ((List Char) × Info)) : List Char :=
  (refs.map (fun kv => srcLine kv.2)).flatten

/-- Third stage of `add_files_to_pbxproj` (lines 68-92): locate the
PBXSourcesBuildPhase section, then the files array starting from the
section's begin marker, then the array terminator, and insert the
membership entries immediately before the terminator. -/
def addStage3 (c2 : List Char) (refs : List ((List Char) × Info)) : Option (List Char) :=
  match findSubstr bSP c2, findSubstr eSP c2 with
  | some sss, some _ =>
    match findFrom fArr c2 sss with
    | some fs0 =>
      match findFrom clArr c2 fs0 with
      | some fe => some (c2.take fe ++ blockS refs ++ c2.drop fe)
      | none => none
    | none => none
  | _, _ => none

/-- Second stage of `add_files_to_pbxproj` (lines 49-66): locate the
PBXFileReference section in the once-spliced text and insert the
file-reference entries immediately before its end marker. -/
def addStage2 (c1 : List Char) (refs : List ((List Char) × Info)) : Option (List Char) :=
  match findSubstr bFR c1, findSubstr eFR c1 with
  | some _, some p2 => addStage3 (c1.take p2 ++ blockR refs ++ c1.drop p2) refs
  | _, _ => none

/-- Embedding of `add_files_to_pbxproj` (text part, lines 13-98): three
marker searches with splice-before-end-marker insertions; `none` models the
`return False` paths in which no write happens. -/
def addFiles (content : List Char) (files : List (List Char)) (toks : Nat → List Char) :
    Option (List Char) :=
  let refs := (mkRefs files toks).1
  match findSubstr bBF content, findSubstr eBF content with
  | some _, some p1 => addStage2 (content.take p1 ++ blockB refs ++ content.drop p1) refs
  | _, _ => none

/-- A two-file file system: the manifest path and its sibling backup path
(`none` = the file does not exist). -/
structure FS where
  manifest : Option (List Char)
  backup : Option (List Char)
deriving DecidableEq

/-- Running `add_files_to_pbxproj` against the file system: the manifest is
read, mutated in memory, and written back only on success (lines 94-98); no
backup is ever taken by this script.  The Bool is the script's success
result. -/
def addRun (files : List (List Char)) (toks : Nat → List Char) (fs : FS) : FS × Bool :=
  match fs.manifest with
  | none => (fs, false)
  | some c =>
    match addFiles c files toks with
    | none => (fs, false)
    | some out => (⟨some out, fs.backup⟩, true)

/-- The hardcoded file list of the script's `__main__` block (lines 103-106). -/
def hardFiles : List (List Char) :=
  ["documentAI/Extensions/PDFDocument+AcroForm.swift".data,
   "documentAI/Features/DocumentEditor/QuickLookPDFView.swift".data]

/-- The `__main__` flow of `add_files_to_xcode.py`: always inserts the two
hardcoded files. -/
def addMain (toks : Nat → List Char) (fs : FS) : FS × Bool :=
  addRun hardFiles toks fs

/-- A PBXFileReference object as exposed by the pbxproj library
(`auto_add_files.py`): a display name and a `path` attribute, each possibly
absent. -/
structure PBXObj where
  name : Option (List Char)
  path : Option (List Char)
deriving DecidableEq

/-- Embedding of `get_files_in_project` (lines 33-41): collect the `path`
value of every PBXFileReference object that has a non-empty one; display
names are not consulted. -/
def getFilesInProject (objs : List PBXObj) : List (List Char) :=
  (objs.filterMap PBXObj.path).filter (fun p => p ≠ [])

/-- Embedding of the tracked-set resolution in `main` of `auto_add_files.py`
(lines 113-119): a file is added when neither its base name nor its full
relative path is among the collected paths. -/
def filesToAdd (allFiles existing : List (List Char)) : List (List Char) :=
  allFiles.filter (fun f => ¬ basename f ∈ existing ∧ ¬ f ∈ existing)

/-- Embedding of `main` of `auto_add_files.py` (lines 84-134).  The pbxproj
library is external, so it enters as two oracles: `parse` maps manifest text
to the PBXFileReference objects the library reports, `libAdd` maps manifest
text and a file batch to the text `project.save()` writes (`none` = the
library raised and nothing was written).  Control flow — the missing-manifest
exit, the first-run-wins backup taken before any write, the nothing-to-do
early return — follows the script. -/
def autoAddRun (parse : List Char → List PBXObj)
    (libAdd : List Char → List (List Char) → Option (List Char))
    (allFiles : List (List Char)) (fs : FS) : FS :=
  match fs.manifest with
  | none => fs
  | some c =>
    let fs1 : FS := ⟨some c, match fs.backup with | none => some c | some b => some b⟩
    let toAdd := filesToAdd allFiles (getFilesInProject (parse c))
    if toAdd = [] then fs1
    else
      match libAdd c toAdd with
      | none => fs1
      | some out => ⟨some out, fs1.backup⟩

/-- The pattern `path = "X";` that `fix_xcode_references.py` searches for
(line 49). -/
def mkPat (x : List Char) : List Char :=
  "path = \"".data ++ x ++ "\";".data

/-- Embedding of the rewrite loop of `fix_pbxproj` (lines 47-55): for each
mapping, when the quoted-path pattern occurs anywhere in the text, every
occurrence is replaced (`str.replace` replaces all) and the change counter
is bumped. -/
def applyMappings (maps : List ((List Char) × (List Char))) (c : List Char) :
    (List Char) × Nat :=
  maps.foldl
    (fun st m =>
      let pat := mkPat m.1
      if (findSubstr pat st.1).isSome then (replaceAll pat (mkPat m.2) st.1, st.2 + 1)
      else st)
    (c, 0)

/-- The hardcoded `FILE_MAPPINGS` dictionary of `fix_xcode_references.py`
(lines 11-28), in insertion order. -/
def FILE_MAPPINGS : List ((List Char) × (List Char)) :=
  [("DocumentAIApp.swift".data, "App/DocumentAIApp.swift".data),
   ("HomeView.swift".data, "Features/Home/HomeView.swift".data),
   ("HomeViewModel.swift".data, "Features/Home/HomeViewModel.swift".data),
   ("FillDocumentView.swift".data, "Features/DocumentEditor/FillDocumentView.swift".data),
   ("FillDocumentViewModel.swift".data, "Features/DocumentEditor/FillDocumentViewModel.swift".data),
   ("DocumentViewModel.swift".data, "Features/DocumentEditor/DocumentViewModel.swift".data),
   ("SplitScreenEditorView.swift".data, "Features/DocumentEditor/SplitScreenEditorView.swift".data),
   ("Models.swift".data, "Core/Models/Models.swift".data),
   ("APIService.swift".data, "Core/Services/APIService.swift".data),
   ("LocalFormStorageService.swift".data, "Core/Services/LocalFormStorageService.swift".data),
   ("LocalStorageService.swift".data, "Core/Services/LocalStorageService.swift".data),
   ("DocumentPickerService.swift".data, "Core/Services/DocumentPickerService.swift".data),
   ("ImagePickerService.swift".data, "Core/Services/ImagePickerService.swift".data),
   ("PDFKitRepresentedView.swift".data, "UI/Components/PDFKitRepresentedView.swift".data),
   ("AnimatedGradientBackground.swift".data, "UI/Components/AnimatedGradientBackground.swift".data),
   ("Theme.swift".data, "UI/Theme/Theme.swift".data)]

/-- Embedding of `fix_pbxproj` (lines 30-74) against the file system: on a
missing manifest the script exits (nothing changes); with zero changes it
returns without touching any file; otherwise the original text is written to
the backup path (unconditionally overwriting it) and the rewritten text to
the manifest.  Returns the file system, whether the script completed
normally, and the change count. -/
def fixRun (maps : List ((List Char) × (List Char))) (fs : FS) : FS × Bool × Nat :=
  match fs.manifest with
  | none => (fs, false, 0)
  | some c =>
    let st := applyMappings maps c
    if st.2 = 0 then (fs, true, 0)
    else (⟨some st.1, some c⟩, true, st.2)

/-- Python `line.split(sep)` (first split only, as used with
`split('path = ')` and `split(';')`): the part before the first occurrence
of `sep` and the part after it. -/
def splitFirst (sep l : List Char) : List (List Char) :=
  match findSubstr sep l with
  | none => [l]
  | some j => [l.take j, l.drop (j + sep.length)]

/-- Python `str.strip('"')`: remove leading and trailing double quotes. -/
def stripQuotes (l : List Char) : List Char :=
  ((l.dropWhile (fun c => c = '"')).reverse.dropWhile (fun c => c = '"')).reverse

/-- Embedding of `get_project_files_from_pbxproj` of
`update_xcode_project.py` (lines 25-43): from every line containing both
`.swift` and `path =`, take the text after `path = ` up to the first `;`,
stripped of quotes. -/
def extractSwiftPaths (content : List Char) : List (List Char) :=
  (content.splitOn '\n').filterMap
    (fun line =>
      if (findSubstr ".swift".data line).isSome ∧ (findSubstr "path =".data line).isSome then
        match splitFirst "path = ".data line with
        | [_, rest] => some (stripQuotes ((splitFirst ";".data rest).headD []))
        | _ => none
      else none)

/-- Embedding of `main` of `update_xcode_project.py` (lines 45-94): when the
project directory is missing the script exits; otherwise it reads the
manifest (a read failure yields the empty referenced set, lines 40-42),
computes the files whose base name is not referenced, and prints a report.
It returns the file-system state it was given together with the list of
files it reports as new; nothing is ever written. -/
def updateMain (swiftFiles : List (List Char)) (projExists : Bool) (fs : FS) :
    (Bool × FS) × List (List Char) :=
  if projExists then
    let referenced :=
      match fs.manifest with
      | none => []
      | some c => extractSwiftPaths c
    let newFiles := swiftFiles.filter (fun f => ¬ basename f ∈ referenced)
    ((projExists, fs), newFiles)
  else ((projExists, fs), [])

/-! ### Toolkit: characterization of `findSubstr` and behaviour of splicing -/

theorem findSubstr_some_occ {p l : List Char} {j : Nat}
    (h : findSubstr p l = some j) : p <+: l.drop j := by
  induction l generalizing j with
  | nil =>
    rw [findSubstr_nil] at h
    split at h
    · next hp =>
      cases h
      simpa using List.isPrefixOf_iff_prefix.mp hp
    · exact absurd h (by simp)
  | cons c t ih =>
    rw [findSubstr_cons] at h
    split at h
    · next hp =>
      cases h
      simpa using List.isPrefixOf_iff_prefix.mp hp
    · next hp =>
      rw [Option.map_eq_some'] at h
      obtain ⟨j', hj', rfl⟩ := h
      simpa using ih hj'

theorem findSubstr_some_min {p l : List Char} {j : Nat}
    (h : findSubstr p l = some j) : ∀ i, i < j → ¬ p <+: l.drop i := by
  induction l generalizing j with
  | nil =>
    rw [findSubstr_nil] at h
    split at h
    · cases h; intro i hi; omega
    · exact absurd h (by simp)
  | cons c t ih =>
    rw [findSubstr_cons] at h
    split at h
    · cases h; intro i hi; omega
    · next hp =>
      rw [Option.map_eq_some'] at h
      obtain ⟨j', hj', rfl⟩ := h
      intro i hi
      cases i with
      | zero =>
        intro hpre
        exact hp (List.isPrefixOf_iff_prefix.mpr (by simpa using hpre))
      | succ i' =>
        have := ih hj' i' (by omega)
        simpa using this

theorem findSubstr_eq_some_of {p l : List Char} {j : Nat}
    (hocc : p <+: l.drop j) (hmin : ∀ i, i < j → ¬ p <+: l.drop i) :
    findSubstr p l = some j := by
  induction l generalizing j with
  | nil =>
    have hj : j = 0 := by
      by_contra hne
      exact hmin 0 (by omega) (by simpa using hocc)
    subst hj
    rw [findSubstr_nil, if_pos (List.isPrefixOf_iff_prefix.mpr (by simpa using hocc))]
  | cons c t ih =>
    cases j with
    | zero =>
      rw [findSubstr_cons, if_pos (List.isPrefixOf_iff_prefix.mpr (by simpa using hocc))]
    | succ j' =>
      have hp : ¬ p.isPrefixOf (c :: t) := by
        intro h'
        exact hmin 0 (by omega) (by simpa using List.isPrefixOf_iff_prefix.mp h')
      rw [findSubstr_cons, if_neg hp]
      have hrec := ih (j := j') (by simpa using hocc)
        (fun i hi => by simpa using hmin (i + 1) (by omega))
      rw [hrec, Option.map_some']

theorem findSubstr_none_occ {p l : List Char} (h : findSubstr p l = none) :
    ∀ i, ¬ p <+: l.drop i := by
  induction l with
  | nil =>
    rw [findSubstr_nil] at h
    split at h
    · exact absurd h (by simp)
    · next hp =>
      intro i hpre
      exact hp (List.isPrefixOf_iff_prefix.mpr (by simpa using hpre))
  | cons c t ih =>
    rw [findSubstr_cons] at h
    split at h
    · exact absurd h (by simp)
    · next hp =>
      rw [Option.map_eq_none'] at h
      intro i
      cases i with
      | zero =>
        intro hpre
        exact hp (List.isPrefixOf_iff_prefix.mpr (by simpa using hpre))
      | succ i' => simpa using ih h i'

theorem findSubstr_isSome_of_occurs {p l : List Char} (h : p <:+: l) :
    (findSubstr p l).isSome := by
  obtain ⟨s, t, rfl⟩ := h
  cases hf : findSubstr p (s ++ p ++ t) with
  | some j => simp
  | none =>
    have hocc : p <+: (s ++ p ++ t).drop s.length := by
      rw [List.append_assoc, List.drop_left]
      exact List.prefix_append p t
    exact absurd hocc (findSubstr_none_occ hf s.length)

theorem findSubstr_decomp {p l : List Char} {j : Nat} (h : findSubstr p l = some j) :
    l = l.take j ++ p ++ l.drop (j + p.length) := by
  have h1 := findSubstr_some_occ h
  have h2 : p ++ (l.drop j).drop p.length = l.drop j := List.prefix_iff_eq_append.mp h1
  rw [List.drop_drop] at h2
  conv_lhs => rw [← List.take_append_drop j l]
  rw [← h2, ← List.append_assoc]

theorem prefix_drop_append_left {p a b : List Char} {j : Nat}
    (h : j + p.length ≤ a.length) : p <+: (a ++ b).drop j ↔ p <+: a.drop j := by
  rw [List.drop_append_of_le_length (by omega)]
  constructor
  · intro hp
    have heq : p = (a.drop j ++ b).take p.length := List.prefix_iff_eq_take.mp hp
    rw [List.take_append_of_le_length (by simp; omega)] at heq
    exact List.prefix_iff_eq_take.mpr heq
  · intro hp
    exact hp.trans (List.prefix_append _ _)

theorem prefix_drop_append_right {p a b : List Char} {j : Nat}
    (h : a.length ≤ j) : p <+: (a ++ b).drop j ↔ p <+: b.drop (j - a.length) := by
  obtain ⟨k, rfl⟩ : ∃ k, j = a.length + k := ⟨j - a.length, by omega⟩
  rw [List.drop_append, Nat.add_sub_cancel_left]

theorem getElem?_of_occ {p l : List Char} {i k : Nat}
    (h : p <+: l.drop i) (hk : k < p.length) : l[i + k]? = p[k]? := by
  have h2 : p ++ (l.drop i).drop p.length = l.drop i := List.prefix_iff_eq_append.mp h
  rw [← List.getElem?_drop, ← h2, List.getElem?_append_left hk]

theorem mem_of_occ_getElem {p l : List Char} {i k : Nat} {c : Char}
    (h : p <+: l.drop i) (hk : k < p.length) (hc : l[i + k]? = some c) : c ∈ p := by
  rw [getElem?_of_occ h hk] at hc
  exact List.getElem?_mem hc

/-- Inserting a block `E` (with known first and last characters that do not
occur in the pattern, and not containing the pattern) between `a` and `b`
neither destroys nor creates occurrences of the pattern except by shifting:
every occurrence of `p` in `a ++ E ++ b` lies entirely before the insertion
point or entirely after the inserted block. -/
theorem occ_splice_cases {p a E b : List Char} {i : Nat} {hc lc : Char}
    (hp : p ≠ []) (hEh : E.head? = some hc) (hEl : E.getLast? = some lc)
    (hch : hc ∉ p) (hcl : lc ∉ p) (hinf : ¬ p <:+: E)
    (h : p <+: (a ++ E ++ b).drop i) :
    (i + p.length ≤ a.length ∧ p <+: (a ++ b).drop i) ∨
    (a.length + E.length ≤ i ∧ p <+: (a ++ b).drop (i - E.length)) := by
  have hplen : 0 < p.length := List.length_pos.mpr hp
  have hElen : 0 < E.length := by
    cases E with
    | nil => simp at hEh
    | cons x xs => simp
  by_cases c1 : i + p.length ≤ a.length
  · left
    refine ⟨c1, ?_⟩
    rw [prefix_drop_append_left (by omega)]
    rw [List.append_assoc] at h
    exact (prefix_drop_append_left (by omega)).mp h
  · by_cases c2 : a.length + E.length ≤ i
    · right
      refine ⟨c2, ?_⟩
      have h' := (prefix_drop_append_right (a := a ++ E) (b := b)
        (by simp; omega)).mp h
      rw [prefix_drop_append_right (by omega)]
      have harith : i - (a ++ E).length = i - E.length - a.length := by simp; omega
      rw [harith] at h'
      exact h'
    · exfalso
      by_cases c3 : i < a.length
      · -- the occurrence straddles the left boundary: it covers E's head
        have hk : a.length - i < p.length := by omega
        have hchar : (a ++ E ++ b)[i + (a.length - i)]? = some hc := by
          have : i + (a.length - i) = a.length := by omega
          rw [this, List.append_assoc, List.getElem?_append_right (by omega),
            Nat.sub_self]
          rw [← List.head?_eq_getElem?, List.head?_append, hEh]
          rfl
        exact hch (mem_of_occ_getElem h hk hchar)
      · have hai : a.length ≤ i := by omega
        by_cases c4 : i + p.length ≤ a.length + E.length
        · -- the occurrence lies inside E
          rw [List.append_assoc] at h
          have h' := (prefix_drop_append_right hai).mp h
          have h'' := (prefix_drop_append_left (a := E) (b := b)
            (by omega)).mp h'
          exact hinf (List.infix_iff_prefix_suffix.mpr
            ⟨E.drop (i - a.length), h'', List.drop_suffix _ _⟩)
        · -- the occurrence straddles the right boundary: it covers E's last char
          have hk : a.length + E.length - 1 - i < p.length := by omega
          have hchar : (a ++ E ++ b)[i + (a.length + E.length - 1 - i)]? = some lc := by
            have heq : i + (a.length + E.length - 1 - i) = a.length + E.length - 1 := by
              omega
            rw [heq, List.getElem?_append_left (by simp; omega),
              List.getElem?_append_right (by omega)]
            have heq2 : a.length + E.length - 1 - a.length = E.length - 1 := by omega
            rw [heq2, ← List.getLast?_eq_getElem?, hEl]
          exact hcl (mem_of_occ_getElem h hk hchar)

/-- First-occurrence transfer across a splice: if the first occurrence of
`p` in `a ++ b` is at `j` past the insertion point `a.length`, then after
inserting `E` at that point the first occurrence is at `j + E.length`. -/
theorem findSubstr_splice {p a b E : List Char} {j : Nat} {hc lc : Char}
    (hp : p ≠ []) (hEh : E.head? = some hc) (hEl : E.getLast? = some lc)
    (hch : hc ∉ p) (hcl : lc ∉ p) (hinf : ¬ p <:+: E)
    (hfind : findSubstr p (a ++ b) = some j) (hj : a.length ≤ j) :
    findSubstr p (a ++ E ++ b) = some (j + E.length) := by
  have hplen : 0 < p.length := List.length_pos.mpr hp
  have hocc := findSubstr_some_occ hfind
  have hmin := findSubstr_some_min hfind
  apply findSubstr_eq_some_of
  · rw [prefix_drop_append_right (a := a ++ E) (b := b) (by simp; omega)]
    have h' := (prefix_drop_append_right hj).mp hocc
    have harith : j + E.length - (a ++ E).length = j - a.length := by simp; omega
    rw [harith]
    exact h'
  · intro i hi hocc2
    rcases occ_splice_cases hp hEh hEl hch hcl hinf hocc2 with ⟨h1, h2⟩ | ⟨h1, h2⟩
    · exact hmin i (by omega) h2
    · exact hmin (i - E.length) (by omega) h2

/-! ### Shape of the generated entry blocks -/

theorem buildLine_head (i : Info) : (buildLine i).head? = some '\t' := rfl

theorem refLine_head (i : Info) : (refLine i).head? = some '\t' := rfl

theorem srcLine_head (i : Info) : (srcLine i).head? = some '\t' := rfl

theorem buildLine_last (i : Info) : (buildLine i).getLast? = some '\n' := by
  rw [buildLine, List.getLast?_append]
  rfl

theorem refLine_last (i : Info) : (refLine i).getLast? = some '\n' := by
  rw [refLine, List.getLast?_append]
  rfl

theorem srcLine_last (i : Info) : (srcLine i).getLast? = some '\n' := by
  rw [srcLine, List.getLast?_append]
  rfl

theorem upsert_ne_nil (k : List Char) (v : Info) (l : List ((List Char) × Info)) :
    upsert k v l ≠ [] := by
  cases l with
  | nil => simp [upsert]
  | cons kv rest =>
    rw [upsert]
    split <;> simp

theorem mkRefsGo_fst_ne_nil (toks : Nat → List Char) :
    ∀ (files : List (List Char)) (k : Nat) (acc : List ((List Char) × Info))
      (tr : List (List Char)), acc ≠ [] ∨ files ≠ [] →
      (mkRefsGo toks files k acc tr).1 ≠ [] := by
  intro files
  induction files with
  | nil =>
    intro k acc tr h
    rcases h with h | h
    · simpa [mkRefsGo] using h
    · exact absurd rfl h
  | cons f fs ih =>
    intro k acc tr _
    rw [mkRefsGo]
    exact ih _ _ _ (Or.inl (upsert_ne_nil _ _ _))

theorem mkRefs_fst_ne_nil {files : List (List Char)} (toks : Nat → List Char)
    (h : files ≠ []) : (mkRefs files toks).1 ≠ [] :=
  mkRefsGo_fst_ne_nil toks files 0 [] [] (Or.inr h)

theorem blockB_head {refs : List ((List Char) × Info)} (h : refs ≠ []) :
    (blockB refs).head? = some '\t' := by
  cases refs with
  | nil => exact absurd rfl h
  | cons kv rest =>
    simp [blockB, buildLine_head kv.2]

theorem blockR_head {refs : List ((List Char) × Info)} (h : refs ≠ []) :
    (blockR refs).head? = some '\t' := by
  cases refs with
  | nil => exact absurd rfl h
  | cons kv rest =>
    simp [blockR, refLine_head kv.2]

theorem blockB_last {refs : List ((List Char) × Info)} (h : refs ≠ []) :
    (blockB refs).getLast? = some '\n' := by
  induction refs with
  | nil => exact absurd rfl h
  | cons kv rest ih =>
    rw [show blockB (kv :: rest) = buildLine kv.2 ++ blockB rest from by simp [blockB]]
    rw [List.getLast?_append]
    cases rest with
    | nil => simp [blockB, buildLine_last kv.2]
    | cons kv2 rest2 =>
      rw [ih (by simp)]
      rfl

theorem blockR_last {refs : List ((List Char) × Info)} (h : refs ≠ []) :
    (blockR refs).getLast? = some '\n' := by
  induction refs with
  | nil => exact absurd rfl h
  | cons kv rest ih =>
    rw [show blockR (kv :: rest) = refLine kv.2 ++ blockR rest from by simp [blockR]]
    rw [List.getLast?_append]
    cases rest with
    | nil => simp [blockR, refLine_last kv.2]
    | cons kv2 rest2 =>
      rw [ih (by simp)]
      rfl

/-! ### The splice behaviour of `add_files_to_pbxproj` on a canonically
laid out manifest -/

/-- A canonically laid out manifest: the three sections in their standard
order, with the files array inside the sources build phase. -/
def canonContent (c0 c1 c2 c3 c4 c5 c6 c7 c8 : List Char) : List Char :=
  c0 ++ bBF ++ c1 ++ eBF ++ c2 ++ bFR ++ c3 ++ eFR ++ c4 ++ bSP ++ c5 ++
    fArr ++ c6 ++ clArr ++ c7 ++ eSP ++ c8

/-- The output the splices produce: each generated entry block sits
immediately before its section's end marker (the files array terminator for
the membership block), everything else byte-identical. -/
def canonOut (c0 c1 c2 c3 c4 c5 c6 c7 c8 : List Char)
    (refs : List ((List Char) × Info)) : List Char :=
  c0 ++ bBF ++ c1 ++ blockB refs ++ eBF ++ c2 ++ bFR ++ c3 ++ blockR refs ++
    eFR ++ c4 ++ bSP ++ c5 ++ fArr ++ c6 ++ blockS refs ++ clArr ++ c7 ++ eSP ++ c8

theorem addStage3_spliced
    (c0 c1 c2 c3 c4 c5 c6 c7 c8 : List Char)
    (refs : List ((List Char) × Info))
    (hrne : refs ≠ [])
    (h3 : findSubstr bSP
        (c0 ++ bBF ++ c1 ++ eBF ++ c2 ++ bFR ++ c3 ++ eFR ++ c4 ++ bSP ++ c5 ++
          fArr ++ c6 ++ clArr ++ c7 ++ eSP ++ c8) =
      some (c0.length + bBF.length + c1.length + eBF.length + c2.length +
        bFR.length + c3.length + eFR.length + c4.length))
    (hg2 : ¬ bSP <:+: blockB refs)
    (hg3 : ¬ bSP <:+: blockR refs)
    (h4 : findSubstr fArr (bSP ++ c5 ++ fArr ++ c6 ++ clArr ++ c7 ++ eSP ++ c8) =
      some (bSP.length + c5.length))
    (h5 : findSubstr clArr (fArr ++ c6 ++ clArr ++ c7 ++ eSP ++ c8) =
      some (fArr.length + c6.length)) :
    addStage3
      (c0 ++ bBF ++ c1 ++ blockB refs ++ eBF ++ c2 ++ bFR ++ c3 ++ blockR refs ++
        (eFR ++ c4 ++ bSP ++ c5 ++ fArr ++ c6 ++ clArr ++ c7 ++ eSP ++ c8)) refs =
    some (c0 ++ bBF ++ c1 ++ blockB refs ++ eBF ++ c2 ++ bFR ++ c3 ++ blockR refs ++
        eFR ++ c4 ++ bSP ++ c5 ++ fArr ++ c6 ++ blockS refs ++ (clArr ++ c7 ++ eSP ++ c8)) := by
  have hBh := blockB_head hrne
  have hBl := blockB_last hrne
  have hRh := blockR_head hrne
  have hRl := blockR_last hrne
  have e1 : (c0 ++ bBF ++ c1) ++
      (eBF ++ c2 ++ bFR ++ c3 ++ eFR ++ c4 ++ bSP ++ c5 ++ fArr ++ c6 ++ clArr ++ c7 ++ eSP ++ c8) =
      c0 ++ bBF ++ c1 ++ eBF ++ c2 ++ bFR ++ c3 ++ eFR ++ c4 ++ bSP ++ c5 ++
        fArr ++ c6 ++ clArr ++ c7 ++ eSP ++ c8 := by
    simp [List.append_assoc]
  rw [← e1] at h3
  have t1 := findSubstr_splice (E := blockB refs) (by decide) hBh hBl
    (by decide) (by decide) hg2 h3 (by simp; omega)
  have e2 : (c0 ++ bBF ++ c1) ++ blockB refs ++
      (eBF ++ c2 ++ bFR ++ c3 ++ eFR ++ c4 ++ bSP ++ c5 ++ fArr ++ c6 ++ clArr ++ c7 ++ eSP ++ c8) =
      (c0 ++ bBF ++ c1 ++ blockB refs ++ eBF ++ c2 ++ bFR ++ c3) ++
      (eFR ++ c4 ++ bSP ++ c5 ++ fArr ++ c6 ++ clArr ++ c7 ++ eSP ++ c8) := by
    simp [List.append_assoc]
  rw [e2] at t1
  have t2 := findSubstr_splice (E := blockR refs) (by decide) hRh hRl
    (by decide) (by decide) hg3 t1 (by simp; omega)
  have hespInf : eSP <:+:
      (c0 ++ bBF ++ c1 ++ blockB refs ++ eBF ++ c2 ++ bFR ++ c3 ++ blockR refs ++
        (eFR ++ c4 ++ bSP ++ c5 ++ fArr ++ c6 ++ clArr ++ c7 ++ eSP ++ c8)) :=
    ⟨c0 ++ bBF ++ c1 ++ blockB refs ++ eBF ++ c2 ++ bFR ++ c3 ++ blockR refs ++
      eFR ++ c4 ++ bSP ++ c5 ++ fArr ++ c6 ++ clArr ++ c7, c8, by simp [List.append_assoc]⟩
  obtain ⟨ke, hke⟩ := Option.isSome_iff_exists.mp (findSubstr_isSome_of_occurs hespInf)
  have hd5 : (c0 ++ bBF ++ c1 ++ blockB refs ++ eBF ++ c2 ++ bFR ++ c3 ++ blockR refs ++
      (eFR ++ c4 ++ bSP ++ c5 ++ fArr ++ c6 ++ clArr ++ c7 ++ eSP ++ c8)) =
      (c0 ++ bBF ++ c1 ++ blockB refs ++ eBF ++ c2 ++ bFR ++ c3 ++ blockR refs ++ eFR ++ c4) ++
      (bSP ++ c5 ++ fArr ++ c6 ++ clArr ++ c7 ++ eSP ++ c8) := by
    simp [List.append_assoc]
  have hdrop5 : (c0 ++ bBF ++ c1 ++ blockB refs ++ eBF ++ c2 ++ bFR ++ c3 ++ blockR refs ++
      (eFR ++ c4 ++ bSP ++ c5 ++ fArr ++ c6 ++ clArr ++ c7 ++ eSP ++ c8)).drop
        (c0.length + bBF.length + c1.length + eBF.length + c2.length +
          bFR.length + c3.length + eFR.length + c4.length + (blockB refs).length +
          (blockR refs).length) =
      bSP ++ c5 ++ fArr ++ c6 ++ clArr ++ c7 ++ eSP ++ c8 := by
    rw [hd5]
    exact List.drop_left' (by simp; omega)
  have hd6 : (c0 ++ bBF ++ c1 ++ blockB refs ++ eBF ++ c2 ++ bFR ++ c3 ++ blockR refs ++
      (eFR ++ c4 ++ bSP ++ c5 ++ fArr ++ c6 ++ clArr ++ c7 ++ eSP ++ c8)) =
      (c0 ++ bBF ++ c1 ++ blockB refs ++ eBF ++ c2 ++ bFR ++ c3 ++ blockR refs ++ eFR ++
        c4 ++ bSP ++ c5) ++ (fArr ++ c6 ++ clArr ++ c7 ++ eSP ++ c8) := by
    simp [List.append_assoc]
  have hdrop6 : (c0 ++ bBF ++ c1 ++ blockB refs ++ eBF ++ c2 ++ bFR ++ c3 ++ blockR refs ++
      (eFR ++ c4 ++ bSP ++ c5 ++ fArr ++ c6 ++ clArr ++ c7 ++ eSP ++ c8)).drop
        (bSP.length + c5.length +
          (c0.length + bBF.length + c1.length + eBF.length + c2.length +
            bFR.length + c3.length + eFR.length + c4.length + (blockB refs).length +
            (blockR refs).length)) =
      fArr ++ c6 ++ clArr ++ c7 ++ eSP ++ c8 := by
    rw [hd6]
    exact List.drop_left' (by simp; omega)
  have hd7 : (c0 ++ bBF ++ c1 ++ blockB refs ++ eBF ++ c2 ++ bFR ++ c3 ++ blockR refs ++
      (eFR ++ c4 ++ bSP ++ c5 ++ fArr ++ c6 ++ clArr ++ c7 ++ eSP ++ c8)) =
      (c0 ++ bBF ++ c1 ++ blockB refs ++ eBF ++ c2 ++ bFR ++ c3 ++ blockR refs ++ eFR ++
        c4 ++ bSP ++ c5 ++ fArr ++ c6) ++ (clArr ++ c7 ++ eSP ++ c8) := by
    simp [List.append_assoc]
  have htake7 : (c0 ++ bBF ++ c1 ++ blockB refs ++ eBF ++ c2 ++ bFR ++ c3 ++ blockR refs ++
      (eFR ++ c4 ++ bSP ++ c5 ++ fArr ++ c6 ++ clArr ++ c7 ++ eSP ++ c8)).take
        (fArr.length + c6.length +
          (bSP.length + c5.length +
            (c0.length + bBF.length + c1.length + eBF.length + c2.length +
              bFR.length + c3.length + eFR.length + c4.length + (blockB refs).length +
              (blockR refs).length))) =
      c0 ++ bBF ++ c1 ++ blockB refs ++ eBF ++ c2 ++ bFR ++ c3 ++ blockR refs ++ eFR ++
        c4 ++ bSP ++ c5 ++ fArr ++ c6 := by
    rw [hd7]
    exact List.take_left' (by simp; omega)
  have hdrop7 : (c0 ++ bBF ++ c1 ++ blockB refs ++ eBF ++ c2 ++ bFR ++ c3 ++ blockR refs ++
      (eFR ++ c4 ++ bSP ++ c5 ++ fArr ++ c6 ++ clArr ++ c7 ++ eSP ++ c8)).drop
        (fArr.length + c6.length +
          (bSP.length + c5.length +
            (c0.length + bBF.length + c1.length + eBF.length + c2.length +
              bFR.length + c3.length + eFR.length + c4.length + (blockB refs).length +
              (blockR refs).length))) =
      clArr ++ c7 ++ eSP ++ c8 := by
    rw [hd7]
    exact List.drop_left' (by simp; omega)
  simp only [addStage3, t2, hke, findFrom, hdrop5, h4, Option.map_some', hdrop6, h5,
    htake7, hdrop7]

theorem addStage2_spliced
    (c0 c1 c2 c3 c4 c5 c6 c7 c8 : List Char)
    (refs : List ((List Char) × Info))
    (hrne : refs ≠ [])
    (h2 : findSubstr eFR
        (c0 ++ bBF ++ c1 ++ eBF ++ c2 ++ bFR ++ c3 ++ eFR ++ c4 ++ bSP ++ c5 ++
          fArr ++ c6 ++ clArr ++ c7 ++ eSP ++ c8) =
      some (c0.length + bBF.length + c1.length + eBF.length + c2.length +
        bFR.length + c3.length))
    (h3 : findSubstr bSP
        (c0 ++ bBF ++ c1 ++ eBF ++ c2 ++ bFR ++ c3 ++ eFR ++ c4 ++ bSP ++ c5 ++
          fArr ++ c6 ++ clArr ++ c7 ++ eSP ++ c8) =
      some (c0.length + bBF.length + c1.length + eBF.length + c2.length +
        bFR.length + c3.length + eFR.length + c4.length))
    (hg1 : ¬ eFR <:+: blockB refs)
    (hg2 : ¬ bSP <:+: blockB refs)
    (hg3 : ¬ bSP <:+: blockR refs)
    (h4 : findSubstr fArr (bSP ++ c5 ++ fArr ++ c6 ++ clArr ++ c7 ++ eSP ++ c8) =
      some (bSP.length + c5.length))
    (h5 : findSubstr clArr (fArr ++ c6 ++ clArr ++ c7 ++ eSP ++ c8) =
      some (fArr.length + c6.length)) :
    addStage2
      ((c0 ++ bBF ++ c1) ++ blockB refs ++
        (eBF ++ c2 ++ bFR ++ c3 ++ eFR ++ c4 ++ bSP ++ c5 ++ fArr ++ c6 ++ clArr ++ c7 ++
          eSP ++ c8)) refs =
    some (c0 ++ bBF ++ c1 ++ blockB refs ++ eBF ++ c2 ++ bFR ++ c3 ++ blockR refs ++
        eFR ++ c4 ++ bSP ++ c5 ++ fArr ++ c6 ++ blockS refs ++ (clArr ++ c7 ++ eSP ++ c8)) := by
  have hBh := blockB_head hrne
  have hBl := blockB_last hrne
  have hbFRInf : bFR <:+:
      ((c0 ++ bBF ++ c1) ++ blockB refs ++
        (eBF ++ c2 ++ bFR ++ c3 ++ eFR ++ c4 ++ bSP ++ c5 ++ fArr ++ c6 ++ clArr ++ c7 ++
          eSP ++ c8)) :=
    ⟨c0 ++ bBF ++ c1 ++ blockB refs ++ eBF ++ c2,
     c3 ++ eFR ++ c4 ++ bSP ++ c5 ++ fArr ++ c6 ++ clArr ++ c7 ++ eSP ++ c8,
     by simp [List.append_assoc]⟩
  obtain ⟨kb, hkb⟩ := Option.isSome_iff_exists.mp (findSubstr_isSome_of_occurs hbFRInf)
  have e1 : (c0 ++ bBF ++ c1) ++
      (eBF ++ c2 ++ bFR ++ c3 ++ eFR ++ c4 ++ bSP ++ c5 ++ fArr ++ c6 ++ clArr ++ c7 ++ eSP ++ c8) =
      c0 ++ bBF ++ c1 ++ eBF ++ c2 ++ bFR ++ c3 ++ eFR ++ c4 ++ bSP ++ c5 ++
        fArr ++ c6 ++ clArr ++ c7 ++ eSP ++ c8 := by
    simp [List.append_assoc]
  rw [← e1] at h2
  have t1 := findSubstr_splice (E := blockB refs) (by decide) hBh hBl
    (by decide) (by decide) hg1 h2 (by simp; omega)
  have hd2 : ((c0 ++ bBF ++ c1) ++ blockB refs ++
      (eBF ++ c2 ++ bFR ++ c3 ++ eFR ++ c4 ++ bSP ++ c5 ++ fArr ++ c6 ++ clArr ++ c7 ++
        eSP ++ c8)) =
      (c0 ++ bBF ++ c1 ++ blockB refs ++ eBF ++ c2 ++ bFR ++ c3) ++
      (eFR ++ c4 ++ bSP ++ c5 ++ fArr ++ c6 ++ clArr ++ c7 ++ eSP ++ c8) := by
    simp [List.append_assoc]
  have htake2 : ((c0 ++ bBF ++ c1) ++ blockB refs ++
      (eBF ++ c2 ++ bFR ++ c3 ++ eFR ++ c4 ++ bSP ++ c5 ++ fArr ++ c6 ++ clArr ++ c7 ++
        eSP ++ c8)).take
        (c0.length + bBF.length + c1.length + eBF.length + c2.length +
          bFR.length + c3.length + (blockB refs).length) =
      c0 ++ bBF ++ c1 ++ blockB refs ++ eBF ++ c2 ++ bFR ++ c3 := by
    rw [hd2]
    exact List.take_left' (by simp; omega)
  have hdrop2 : ((c0 ++ bBF ++ c1) ++ blockB refs ++
      (eBF ++ c2 ++ bFR ++ c3 ++ eFR ++ c4 ++ bSP ++ c5 ++ fArr ++ c6 ++ clArr ++ c7 ++
        eSP ++ c8)).drop
        (c0.length + bBF.length + c1.length + eBF.length + c2.length +
          bFR.length + c3.length + (blockB refs).length) =
      eFR ++ c4 ++ bSP ++ c5 ++ fArr ++ c6 ++ clArr ++ c7 ++ eSP ++ c8 := by
    rw [hd2]
    exact List.drop_left' (by simp; omega)
  simp only [addStage2, hkb, t1, htake2, hdrop2]
  have harg : (c0 ++ bBF ++ c1 ++ blockB refs ++ eBF ++ c2 ++ bFR ++ c3) ++ blockR refs ++
      (eFR ++ c4 ++ bSP ++ c5 ++ fArr ++ c6 ++ clArr ++ c7 ++ eSP ++ c8) =
      c0 ++ bBF ++ c1 ++ blockB refs ++ eBF ++ c2 ++ bFR ++ c3 ++ blockR refs ++
        (eFR ++ c4 ++ bSP ++ c5 ++ fArr ++ c6 ++ clArr ++ c7 ++ eSP ++ c8) := by
    simp [List.append_assoc]
  rw [harg]
  exact addStage3_spliced c0 c1 c2 c3 c4 c5 c6 c7 c8 refs hrne h3 hg2 hg3 h4 h5

/-- Main splice lemma: on a canonically laid out manifest whose markers
first occur at their canonical positions (and whose generated entry blocks
do not themselves contain the later markers), `add_files_to_pbxproj`
succeeds and produces exactly the input with the three entry blocks spliced
in immediately before the corresponding end markers. -/
theorem addFiles_spliced
    (c0 c1 c2 c3 c4 c5 c6 c7 c8 : List Char)
    (files : List (List Char)) (toks : Nat → List Char)
    (hne : files ≠ [])
    (h1 : findSubstr eBF (canonContent c0 c1 c2 c3 c4 c5 c6 c7 c8) =
      some (c0.length + bBF.length + c1.length))
    (h2 : findSubstr eFR (canonContent c0 c1 c2 c3 c4 c5 c6 c7 c8) =
      some (c0.length + bBF.length + c1.length + eBF.length + c2.length +
        bFR.length + c3.length))
    (h3 : findSubstr bSP (canonContent c0 c1 c2 c3 c4 c5 c6 c7 c8) =
      some (c0.length + bBF.length + c1.length + eBF.length + c2.length +
        bFR.length + c3.length + eFR.length + c4.length))
    (h4 : findSubstr fArr (bSP ++ c5 ++ fArr ++ c6 ++ clArr ++ c7 ++ eSP ++ c8) =
      some (bSP.length + c5.length))
    (h5 : findSubstr clArr (fArr ++ c6 ++ clArr ++ c7 ++ eSP ++ c8) =
      some (fArr.length + c6.length))
    (hg1 : ¬ eFR <:+: blockB (mkRefs files toks).1)
    (hg2 : ¬ bSP <:+: blockB (mkRefs files toks).1)
    (hg3 : ¬ bSP <:+: blockR (mkRefs files toks).1) :
    addFiles (canonContent c0 c1 c2 c3 c4 c5 c6 c7 c8) files toks =
      some (canonOut c0 c1 c2 c3 c4 c5 c6 c7 c8 (mkRefs files toks).1) := by
  have hrne : (mkRefs files toks).1 ≠ [] := mkRefs_fst_ne_nil toks hne
  have hbBFInf : bBF <:+: canonContent c0 c1 c2 c3 c4 c5 c6 c7 c8 :=
    ⟨c0, c1 ++ eBF ++ c2 ++ bFR ++ c3 ++ eFR ++ c4 ++ bSP ++ c5 ++ fArr ++ c6 ++
      clArr ++ c7 ++ eSP ++ c8, by simp [canonContent, List.append_assoc]⟩
  obtain ⟨k0, hk0⟩ := Option.isSome_iff_exists.mp (findSubstr_isSome_of_occurs hbBFInf)
  have hd1 : canonContent c0 c1 c2 c3 c4 c5 c6 c7 c8 =
      (c0 ++ bBF ++ c1) ++
      (eBF ++ c2 ++ bFR ++ c3 ++ eFR ++ c4 ++ bSP ++ c5 ++ fArr ++ c6 ++ clArr ++ c7 ++
        eSP ++ c8) := by
    simp [canonContent, List.append_assoc]
  have htake1 : (canonContent c0 c1 c2 c3 c4 c5 c6 c7 c8).take
      (c0.length + bBF.length + c1.length) = c0 ++ bBF ++ c1 := by
    rw [hd1]
    exact List.take_left' (by simp; omega)
  have hdrop1 : (canonContent c0 c1 c2 c3 c4 c5 c6 c7 c8).drop
      (c0.length + bBF.length + c1.length) =
      eBF ++ c2 ++ bFR ++ c3 ++ eFR ++ c4 ++ bSP ++ c5 ++ fArr ++ c6 ++ clArr ++ c7 ++
        eSP ++ c8 := by
    rw [hd1]
    exact List.drop_left' (by simp; omega)
  have hout : canonOut c0 c1 c2 c3 c4 c5 c6 c7 c8 (mkRefs files toks).1 =
      c0 ++ bBF ++ c1 ++ blockB (mkRefs files toks).1 ++ eBF ++ c2 ++ bFR ++ c3 ++
        blockR (mkRefs files toks).1 ++ eFR ++ c4 ++ bSP ++ c5 ++ fArr ++ c6 ++
        blockS (mkRefs files toks).1 ++ (clArr ++ c7 ++ eSP ++ c8) := by
    simp [canonOut, List.append_assoc]
  rw [hout]
  simp only [addFiles, hk0, h1, htake1, hdrop1]
  have h2' : findSubstr eFR
      (c0 ++ bBF ++ c1 ++ eBF ++ c2 ++ bFR ++ c3 ++ eFR ++ c4 ++ bSP ++ c5 ++
        fArr ++ c6 ++ clArr ++ c7 ++ eSP ++ c8) =
      some (c0.length + bBF.length + c1.length + eBF.length + c2.length +
        bFR.length + c3.length) := h2
  have h3' : findSubstr bSP
      (c0 ++ bBF ++ c1 ++ eBF ++ c2 ++ bFR ++ c3 ++ eFR ++ c4 ++ bSP ++ c5 ++
        fArr ++ c6 ++ clArr ++ c7 ++ eSP ++ c8) =
      some (c0.length + bBF.length + c1.length + eBF.length + c2.length +
        bFR.length + c3.length + eFR.length + c4.length) := h3
  exact addStage2_spliced c0 c1 c2 c3 c4 c5 c6 c7 c8 (mkRefs files toks).1 hrne
    h2' h3' hg1 hg2 hg3 h4 h5

/-! ### Every file of the batch owns one dictionary record -/

theorem upsert_self_mem (k : List Char) (v : Info) (l : List ((List Char) × Info)) :
    (k, v) ∈ upsert k v l := by
  induction l with
  | nil => simp [upsert]
  | cons kv rest ih =>
    obtain ⟨k', v'⟩ := kv
    rw [upsert]
    split
    · exact List.mem_cons_self _ _
    · exact List.mem_cons_of_mem _ ih

theorem upsert_mem_of_ne {k' k : List Char} {v' v : Info} {l : List ((List Char) × Info)}
    (hne : k' ≠ k) (h : (k', v') ∈ l) : (k', v') ∈ upsert k v l := by
  induction l with
  | nil => simp at h
  | cons kv rest ih =>
    obtain ⟨a, b⟩ := kv
    rw [upsert]
    split
    · next hak =>
      rcases List.mem_cons.mp h with heq | hmem
      · cases heq
        exact absurd hak (by simpa using hne)
      · exact List.mem_cons_of_mem _ hmem
    · rcases List.mem_cons.mp h with heq | hmem
      · exact heq ▸ List.mem_cons_self _ _
      · exact List.mem_cons_of_mem _ (ih hmem)

theorem mkRefsGo_mem (toks : Nat → List Char) (f : List Char) :
    ∀ (files : List (List Char)) (k : Nat) (acc : List ((List Char) × Info))
      (tr : List (List Char)),
      ((∃ i, (f, i) ∈ acc ∧ i.name = basename f) ∨ f ∈ files) →
      ∃ i, (f, i) ∈ (mkRefsGo toks files k acc tr).1 ∧ i.name = basename f := by
  intro files
  induction files with
  | nil =>
    intro k acc tr h
    rcases h with h | h
    · simpa [mkRefsGo] using h
    · simp at h
  | cons g gs ih =>
    intro k acc tr h
    rw [mkRefsGo]
    apply ih
    by_cases hfg : f = g
    · subst hfg
      exact Or.inl ⟨⟨toks k, toks (k + 1), basename f⟩, upsert_self_mem _ _ _, rfl⟩
    · rcases h with ⟨i, hmem, hname⟩ | hmem
      · exact Or.inl ⟨i, upsert_mem_of_ne hfg hmem, hname⟩
      · rcases List.mem_cons.mp hmem with heq | hmem'
        · exact absurd heq hfg
        · exact Or.inr hmem'

theorem mkRefs_mem {files : List (List Char)} (toks : Nat → List Char) {f : List Char}
    (h : f ∈ files) :
    ∃ i, (f, i) ∈ (mkRefs files toks).1 ∧ i.name = basename f :=
  mkRefsGo_mem toks f files 0 [] [] (Or.inr h)

theorem line_infix_of_mem {refs : List ((List Char) × Info)} {f : List Char} {i : Info}
    (g : Info → List Char) (h : (f, i) ∈ refs) :
    g i <:+: (refs.map (fun kv => g kv.2)).flatten := by
  induction refs with
  | nil => simp at h
  | cons kv rest ih =>
    rw [show (List.map (fun kv => g kv.2) (kv :: rest)).flatten =
      g kv.2 ++ (List.map (fun kv => g kv.2) rest).flatten from by simp]
    rcases List.mem_cons.mp h with heq | hmem
    · rw [show i = kv.2 from congrArg Prod.snd heq]
      exact ⟨[], (List.map (fun kv => g kv.2) rest).flatten, by simp⟩
    · exact (ih hmem).trans (List.suffix_append _ _).isInfix

/-! ### Output depends on the dictionary only through the entry blocks -/

theorem addStage3_congr (refs refs' : List ((List Char) × Info))
    (hS : blockS refs = blockS refs') :
    ∀ x, addStage3 x refs = addStage3 x refs' := by
  intro x
  simp only [addStage3, hS]

theorem addStage2_congr (refs refs' : List ((List Char) × Info))
    (hR : blockR refs = blockR refs') (hS : blockS refs = blockS refs') :
    ∀ x, addStage2 x refs = addStage2 x refs' := by
  intro x
  simp only [addStage2, hR, addStage3_congr refs refs' hS]

theorem addFiles_congr {content : List Char} {files₁ files₂ : List (List Char)}
    {toks₁ toks₂ : Nat → List Char}
    (hB : blockB (mkRefs files₁ toks₁).1 = blockB (mkRefs files₂ toks₂).1)
    (hR : blockR (mkRefs files₁ toks₁).1 = blockR (mkRefs files₂ toks₂).1)
    (hS : blockS (mkRefs files₁ toks₁).1 = blockS (mkRefs files₂ toks₂).1) :
    addFiles content files₁ toks₁ = addFiles content files₂ toks₂ := by
  simp only [addFiles, hB,
    addStage2_congr (mkRefs files₁ toks₁).1 (mkRefs files₂ toks₂).1 hR hS]

/-! ### Base names -/

theorem takeWhile_prepend_stop {p : Char → Bool} {xs ys : List Char} {y : Char}
    (hall : ∀ c ∈ xs, p c) (hy : ¬ p y) : (xs ++ y :: ys).takeWhile p = xs := by
  induction xs with
  | nil => simp [List.takeWhile_cons, hy]
  | cons x xs' ih =>
    have hx : p x := hall x (by simp)
    simp only [List.cons_append, List.takeWhile_cons, hx, if_true]
    rw [ih (fun c hc => hall c (by simp [hc]))]

theorem basename_no_slash {n : List Char} (h : '/' ∉ n) : basename n = n := by
  rw [basename, List.takeWhile_eq_self_iff.mpr, List.reverse_reverse]
  intro c hc
  simp only [decide_eq_true_eq, ne_eq]
  intro hc'
  exact h (by simpa [hc'] using List.mem_reverse.mp hc)

theorem basename_in_dir {d n : List Char} (h : '/' ∉ n) :
    basename (d ++ '/' :: n) = n := by
  rw [basename]
  have hrev : (d ++ '/' :: n).reverse = n.reverse ++ '/' :: d.reverse := by
    simp
  rw [hrev, takeWhile_prepend_stop ?_ (by simp), List.reverse_reverse]
  intro c hc
  simp only [decide_eq_true_eq, ne_eq]
  intro hc'
  exact h (by simpa [hc'] using List.mem_reverse.mp hc)

/-! ### Claim theorems: C8, C3, C9 -/

/-- Claim C8 (confirmed): on a canonically laid out manifest whose section
markers first occur at their canonical positions and whose generated entry
lines do not themselves contain later section markers, every new entry block
is inserted at the byte offset immediately before its section's end marker
(for the membership list, immediately before the files array terminator
`);`), and the byte content outside the inserted regions is unchanged: the
output equals the input with exactly the three entry blocks spliced in at
those points. -/
theorem claim_C8
    (c0 c1 c2 c3 c4 c5 c6 c7 c8 : List Char)
    (files : List (List Char)) (toks : Nat → List Char)
    (hne : files ≠ [])
    (h1 : findSubstr eBF (canonContent c0 c1 c2 c3 c4 c5 c6 c7 c8) =
      some (c0.length + bBF.length + c1.length))
    (h2 : findSubstr eFR (canonContent c0 c1 c2 c3 c4 c5 c6 c7 c8) =
      some (c0.length + bBF.length + c1.length + eBF.length + c2.length +
        bFR.length + c3.length))
    (h3 : findSubstr bSP (canonContent c0 c1 c2 c3 c4 c5 c6 c7 c8) =
      some (c0.length + bBF.length + c1.length + eBF.length + c2.length +
        bFR.length + c3.length + eFR.length + c4.length))
    (h4 : findSubstr fArr (bSP ++ c5 ++ fArr ++ c6 ++ clArr ++ c7 ++ eSP ++ c8) =
      some (bSP.length + c5.length))
    (h5 : findSubstr clArr (fArr ++ c6 ++ clArr ++ c7 ++ eSP ++ c8) =
      some (fArr.length + c6.length))
    (hg1 : ¬ eFR <:+: blockB (mkRefs files toks).1)
    (hg2 : ¬ bSP <:+: blockB (mkRefs files toks).1)
    (hg3 : ¬ bSP <:+: blockR (mkRefs files toks).1) :
    addFiles (canonContent c0 c1 c2 c3 c4 c5 c6 c7 c8) files toks =
      some (canonOut c0 c1 c2 c3 c4 c5 c6 c7 c8 (mkRefs files toks).1) :=
  addFiles_spliced c0 c1 c2 c3 c4 c5 c6 c7 c8 files toks hne h1 h2 h3 h4 h5 hg1 hg2 hg3

/-- Claim C3 (confirmed): under the same canonical-layout conditions, the
run succeeds, and every file of the batch appears in all three sections:
there are identifiers `r` and `b` such that the PBXBuildFile section gains
an entry with identifier `b` whose `fileRef` field is `r`, the
PBXFileReference section gains an entry with identifier `r`, and the
membership list gains an entry naming `b` — the cross-references are exact
because all three lines are generated from the same record. -/
theorem claim_C3
    (c0 c1 c2 c3 c4 c5 c6 c7 c8 : List Char)
    (files : List (List Char)) (toks : Nat → List Char)
    (hne : files ≠ [])
    (h1 : findSubstr eBF (canonContent c0 c1 c2 c3 c4 c5 c6 c7 c8) =
      some (c0.length + bBF.length + c1.length))
    (h2 : findSubstr eFR (canonContent c0 c1 c2 c3 c4 c5 c6 c7 c8) =
      some (c0.length + bBF.length + c1.length + eBF.length + c2.length +
        bFR.length + c3.length))
    (h3 : findSubstr bSP (canonContent c0 c1 c2 c3 c4 c5 c6 c7 c8) =
      some (c0.length + bBF.length + c1.length + eBF.length + c2.length +
        bFR.length + c3.length + eFR.length + c4.length))
    (h4 : findSubstr fArr (bSP ++ c5 ++ fArr ++ c6 ++ clArr ++ c7 ++ eSP ++ c8) =
      some (bSP.length + c5.length))
    (h5 : findSubstr clArr (fArr ++ c6 ++ clArr ++ c7 ++ eSP ++ c8) =
      some (fArr.length + c6.length))
    (hg1 : ¬ eFR <:+: blockB (mkRefs files toks).1)
    (hg2 : ¬ bSP <:+: blockB (mkRefs files toks).1)
    (hg3 : ¬ bSP <:+: blockR (mkRefs files toks).1) :
    addFiles (canonContent c0 c1 c2 c3 c4 c5 c6 c7 c8) files toks =
      some (canonOut c0 c1 c2 c3 c4 c5 c6 c7 c8 (mkRefs files toks).1) ∧
    ∀ f ∈ files, ∃ r b,
      buildLine ⟨r, b, basename f⟩ <:+: blockB (mkRefs files toks).1 ∧
      refLine ⟨r, b, basename f⟩ <:+: blockR (mkRefs files toks).1 ∧
      srcLine ⟨r, b, basename f⟩ <:+: blockS (mkRefs files toks).1 := by
  refine ⟨addFiles_spliced c0 c1 c2 c3 c4 c5 c6 c7 c8 files toks hne h1 h2 h3 h4 h5
    hg1 hg2 hg3, ?_⟩
  intro f hf
  obtain ⟨i, hmem, hname⟩ := mkRefs_mem toks hf
  refine ⟨i.refUuid, i.buildUuid, ?_, ?_, ?_⟩
  · rw [← hname]
    exact line_infix_of_mem buildLine hmem
  · rw [← hname]
    exact line_infix_of_mem refLine hmem
  · rw [← hname]
    exact line_infix_of_mem srcLine hmem

/-- Claim C9 (confirmed): the direct text-splice inserter records only the
file's base name: the dictionary record for a file in a subdirectory holds
just the base name (used as both display name and `path` field by the entry
builders), and the output is identical to the output for the bare base
name — the directory part of the path, and the computed relative path of
line 60, are never used. -/
theorem claim_C9 (content : List Char) (toks : Nat → List Char) (d n : List Char)
    (h : '/' ∉ n) :
    (mkRefs [d ++ '/' :: n] toks).1 = [(d ++ '/' :: n, ⟨toks 0, toks 1, n⟩)] ∧
    addFiles content [d ++ '/' :: n] toks = addFiles content [n] toks := by
  have hb1 : basename (d ++ '/' :: n) = n := basename_in_dir h
  have hb2 : basename n = n := basename_no_slash h
  have hrefs1 : (mkRefs [d ++ '/' :: n] toks).1 = [(d ++ '/' :: n, ⟨toks 0, toks 1, n⟩)] := by
    simp [mkRefs, mkRefsGo, upsert, hb1]
  have hrefs2 : (mkRefs [n] toks).1 = [(n, ⟨toks 0, toks 1, n⟩)] := by
    simp [mkRefs, mkRefsGo, upsert, hb2]
  refine ⟨hrefs1, addFiles_congr ?_ ?_ ?_⟩
  · rw [hrefs1, hrefs2]
    simp [blockB]
  · rw [hrefs1, hrefs2]
    simp [blockR]
  · rw [hrefs1, hrefs2]
    simp [blockS]

/-- A concrete token source for witnesses (two distinct 24-character
identifiers). -/
def wToks : Nat → List Char :=
  fun n => if n = 0 then "AAAA1111AAAA1111AAAA1111".data else "BBBB2222BBBB2222BBBB2222".data

theorem claim_C8_witness :
    addFiles
      (canonContent "X\n".data "\n".data "\n".data "\n".data "\n".data "\n".data
        "\n".data "\n".data "\n".data)
      ["Foo.swift".data] wToks =
      some (canonOut "X\n".data "\n".data "\n".data "\n".data "\n".data "\n".data
        "\n".data "\n".data "\n".data (mkRefs ["Foo.swift".data] wToks).1) :=
  claim_C8 "X\n".data "\n".data "\n".data "\n".data "\n".data "\n".data "\n".data
    "\n".data "\n".data ["Foo.swift".data] wToks (by decide) (by decide) (by decide)
    (by decide) (by decide) (by decide) (by decide) (by decide) (by decide)

theorem claim_C3_witness :
    (addFiles
      (canonContent "Y\n".data "\n".data "\n".data "\n".data "\n".data "\n".data
        "\n".data "\n".data "\n".data)
      ["Bar.swift".data] wToks =
      some (canonOut "Y\n".data "\n".data "\n".data "\n".data "\n".data "\n".data
        "\n".data "\n".data "\n".data (mkRefs ["Bar.swift".data] wToks).1)) ∧
    ∀ f ∈ ["Bar.swift".data], ∃ r b,
      buildLine ⟨r, b, basename f⟩ <:+: blockB (mkRefs ["Bar.swift".data] wToks).1 ∧
      refLine ⟨r, b, basename f⟩ <:+: blockR (mkRefs ["Bar.swift".data] wToks).1 ∧
      srcLine ⟨r, b, basename f⟩ <:+: blockS (mkRefs ["Bar.swift".data] wToks).1 :=
  claim_C3 "Y\n".data "\n".data "\n".data "\n".data "\n".data "\n".data "\n".data
    "\n".data "\n".data ["Bar.swift".data] wToks (by decide) (by decide) (by decide)
    (by decide) (by decide) (by decide) (by decide) (by decide) (by decide)

theorem claim_C9_witness :
    ((mkRefs ["Sub".data ++ '/' :: "Baz.swift".data] wToks).1 =
      [("Sub".data ++ '/' :: "Baz.swift".data, ⟨wToks 0, wToks 1, "Baz.swift".data⟩)]) ∧
    addFiles
      (canonContent "Z\n".data "\n".data "\n".data "\n".data "\n".data "\n".data
        "\n".data "\n".data "\n".data)
      ["Sub".data ++ '/' :: "Baz.swift".data] wToks =
    addFiles
      (canonContent "Z\n".data "\n".data "\n".data "\n".data "\n".data "\n".data
        "\n".data "\n".data "\n".data)
      ["Baz.swift".data] wToks :=
  claim_C9
    (canonContent "Z\n".data "\n".data "\n".data "\n".data "\n".data "\n".data
      "\n".data "\n".data "\n".data)
    wToks "Sub".data "Baz.swift".data (by decide)

/-! ### Claim C1: identifier allocation -/

theorem mkRefsGo_trace (toks : Nat → List Char) :
    ∀ (files : List (List Char)) (k : Nat) (acc : List ((List Char) × Info))
      (tr : List (List Char)),
      (mkRefsGo toks files k acc tr).2 =
        tr ++ (List.range' k (2 * files.length)).map toks := by
  intro files
  induction files with
  | nil => intro k acc tr; simp [mkRefsGo]
  | cons f fs ih =>
    intro k acc tr
    rw [mkRefsGo, ih]
    have h2 : 2 * (f :: fs).length = 2 * fs.length + 1 + 1 := by
      simp [List.length_cons]; ring
    rw [h2, List.range'_succ, List.range'_succ]
    simp [List.append_assoc]

theorem mkRefs_trace (files : List (List Char)) (toks : Nat → List Char) :
    (mkRefs files toks).2 = (List.range' 0 (2 * files.length)).map toks := by
  rw [mkRefs, mkRefsGo_trace]
  simp

/-- Claim C1 counterexample: the allocation loop performs no collision
re-check, so for the constant token sequence the two identifiers drawn for
a single file coincide — the allocated identifiers are not pairwise
distinct, refuting the claim's "for every sequence of tokens the random
source yields". -/
theorem claim_C1_counterexample :
    (mkRefs ["Foo.swift".data] (fun _ => "CCCC0000CCCC0000CCCC0000".data)).2 =
      ["CCCC0000CCCC0000CCCC0000".data, "CCCC0000CCCC0000CCCC0000".data] ∧
    ¬ (mkRefs ["Foo.swift".data] (fun _ => "CCCC0000CCCC0000CCCC0000".data)).2.Nodup := by
  decide

/-- Claim C1 (amended): the run draws the tokens `toks 0 … toks (2n-1)`;
when those draws are pairwise distinct and avoid every identifier already
present in the manifest, the allocated identifiers are pairwise distinct and
disjoint from the existing ones.  The code never re-checks a draw against
the manifest or the earlier draws, so uniqueness holds only under this
assumption on the random source, not for every token sequence. -/
theorem claim_C1_amended (files existing : List (List Char)) (toks : Nat → List Char)
    (hinj : ∀ i j, i < 2 * files.length → j < 2 * files.length → toks i = toks j → i = j)
    (hex : ∀ i, i < 2 * files.length → toks i ∉ existing) :
    (mkRefs files toks).2.Nodup ∧ ∀ x ∈ (mkRefs files toks).2, x ∉ existing := by
  rw [mkRefs_trace]
  constructor
  · apply List.Nodup.map_on
    · intro i hi j hj hij
      have hi' := List.mem_range'_1.mp hi
      have hj' := List.mem_range'_1.mp hj
      exact hinj i j (by omega) (by omega) hij
    · exact List.nodup_range' 0 (2 * files.length)
  · intro x hx
    obtain ⟨i, hi, rfl⟩ := List.mem_map.mp hx
    have hi' := List.mem_range'_1.mp hi
    exact hex i (by omega)

theorem claim_C1_amended_witness :
    (mkRefs ["W.swift".data] wToks).2.Nodup ∧
    ∀ x ∈ (mkRefs ["W.swift".data] wToks).2, x ∉ ["DDDD0000DDDD0000DDDD0000".data] :=
  claim_C1_amended ["W.swift".data] ["DDDD0000DDDD0000DDDD0000".data] wToks
    (by
      intro i j hi hj heq
      simp only [List.length_cons, List.length_nil] at hi hj
      interval_cases i <;> interval_cases j <;> revert heq <;> decide)
    (by
      intro i hi
      simp only [List.length_cons, List.length_nil] at hi
      interval_cases i <;> decide)

/-! ### Claim C2: backup before write -/

/-- Claim C2 counterexample: a run of the direct text-splice synchronizer
on a file system with no backup file rewrites the manifest and leaves the
backup path absent — the manifest is overwritten while no backup of the
pre-mutation text exists. -/
theorem claim_C2_counterexample :
    ((addMain wToks
        ⟨some (canonContent "X\n".data "\n".data "\n".data "\n".data "\n".data
          "\n".data "\n".data "\n".data "\n".data), none⟩).1.manifest ≠
      some (canonContent "X\n".data "\n".data "\n".data "\n".data "\n".data
        "\n".data "\n".data "\n".data "\n".data)) ∧
    (addMain wToks
        ⟨some (canonContent "X\n".data "\n".data "\n".data "\n".data "\n".data
          "\n".data "\n".data "\n".data "\n".data), none⟩).1.backup = none ∧
    (addMain wToks
        ⟨some (canonContent "X\n".data "\n".data "\n".data "\n".data "\n".data
          "\n".data "\n".data "\n".data "\n".data), none⟩).2 = true := by
  decide

/-- Claim C2 (amended): the library-backed synchronizer
(`auto_add_files.py`) does satisfy the claim: on every run the backup path
afterwards holds the pre-run manifest text when it was absent (taken before
any write) and is left untouched when it already existed (first-run-wins),
and whenever the manifest changed a backup exists.  The direct text-splice
script (`add_files_to_xcode.py`) never creates a backup (see the
counterexample). -/
theorem claim_C2_amended (parse : List Char → List PBXObj)
    (libAdd : List Char → List (List Char) → Option (List Char))
    (allFiles : List (List Char)) (fs : FS) :
    ((autoAddRun parse libAdd allFiles fs).backup =
      match fs.backup with
      | none => fs.manifest
      | some b => some b) ∧
    ((autoAddRun parse libAdd allFiles fs).manifest ≠ fs.manifest →
      (autoAddRun parse libAdd allFiles fs).backup ≠ none) := by
  obtain ⟨m, b⟩ := fs
  cases m with
  | none =>
    cases b <;> simp [autoAddRun]
  | some c =>
    cases b with
    | none =>
      constructor
      · simp only [autoAddRun]
        split
        · rfl
        · cases libAdd c (filesToAdd allFiles (getFilesInProject (parse c))) <;> rfl
      · intro _
        simp only [autoAddRun]
        split
        · simp
        · cases libAdd c (filesToAdd allFiles (getFilesInProject (parse c))) <;> simp
    | some b' =>
      constructor
      · simp only [autoAddRun]
        split
        · rfl
        · cases libAdd c (filesToAdd allFiles (getFilesInProject (parse c))) <;> rfl
      · intro _
        simp only [autoAddRun]
        split
        · simp
        · cases libAdd c (filesToAdd allFiles (getFilesInProject (parse c))) <;> simp

theorem claim_C2_amended_witness :
    (autoAddRun (fun _ => []) (fun _ _ => none) [] ⟨some ['a'], none⟩).backup = some ['a'] :=
  (claim_C2_amended (fun _ => []) (fun _ _ => none) [] ⟨some ['a'], none⟩).1

/-! ### Claim C4: idempotence -/

/-- Claim C4 counterexample: the direct text-splice synchronizer's main flow
performs no tracked-set resolution — it inserts its hardcoded file list on
every run, so running it twice in a row with no file-system change in
between changes the manifest again on the second run: the result is not
byte-identical to the manifest after the first run. -/
theorem claim_C4_counterexample :
    (addMain wToks
      ((addMain wToks
        ⟨some (canonContent "W\n".data "\n".data "\n".data "\n".data "\n".data
          "\n".data "\n".data "\n".data "\n".data), none⟩).1)).1.manifest ≠
    (addMain wToks
      ⟨some (canonContent "W\n".data "\n".data "\n".data "\n".data "\n".data
        "\n".data "\n".data "\n".data "\n".data), none⟩).1.manifest := by
  decide

/-- Claim C4 (amended): the library-backed synchronizer is a no-op on the
manifest whenever re-resolution classifies every file-system file as
tracked — in particular on a second run, provided the first run's
insertions record each inserted file's path (or base name) among the
manifest's FileReference path values, so the second run inserts no entries
and the manifest is byte-identical.  The direct text-splice script performs
no resolution and is not idempotent (see the counterexample). -/
theorem claim_C4_amended (parse : List Char → List PBXObj)
    (libAdd : List Char → List (List Char) → Option (List Char))
    (allFiles : List (List Char)) (fs : FS) (c : List Char)
    (hm : fs.manifest = some c)
    (hres : filesToAdd allFiles (getFilesInProject (parse c)) = []) :
    (autoAddRun parse libAdd allFiles fs).manifest = fs.manifest := by
  obtain ⟨m, b⟩ := fs
  simp only at hm
  subst hm
  simp [autoAddRun, hres]

theorem claim_C4_amended_witness :
    (autoAddRun (fun _ => [⟨none, some "Foo.swift".data⟩]) (fun _ _ => none)
      ["Dir/Foo.swift".data] ⟨some ['m'], none⟩).manifest = some ['m'] :=
  claim_C4_amended (fun _ => [⟨none, some "Foo.swift".data⟩]) (fun _ _ => none)
    ["Dir/Foo.swift".data] ⟨some ['m'], none⟩ ['m'] rfl (by decide)

/-! ### Claim C10: the reporting script never writes -/

/-- Claim C10 (confirmed): `update_xcode_project.py` only reads the manifest
and prints a report: for every file-system state and candidate file list,
its main routine returns the file-system state unchanged — the manifest's
bytes are identical before and after any run. -/
theorem claim_C10 (swiftFiles : List (List Char)) (projExists : Bool) (fs : FS) :
    ((updateMain swiftFiles projExists fs).1).2 = fs ∧
    ((updateMain swiftFiles projExists fs).1).1 = projExists := by
  unfold updateMain
  split <;> simp

/-! ### Claim C5: missing markers abort the run with no write -/

theorem infix_iff_occ {p l : List Char} : p <:+: l ↔ ∃ i, p <+: l.drop i := by
  constructor
  · rintro ⟨s, t, rfl⟩
    exact ⟨s.length, by rw [List.append_assoc, List.drop_left]; exact List.prefix_append p t⟩
  · rintro ⟨i, hi⟩
    exact List.infix_iff_prefix_suffix.mpr ⟨l.drop i, hi, List.drop_suffix _ _⟩

theorem findSubstr_eq_none {p l : List Char} (h : ¬ p <:+: l) :
    findSubstr p l = none := by
  cases hf : findSubstr p l with
  | none => rfl
  | some j =>
    exact absurd (infix_iff_occ.mpr ⟨j, findSubstr_some_occ hf⟩) h

theorem not_infix_drop {p l : List Char} (h : ¬ p <:+: l) (i : Nat) :
    ¬ p <:+: l.drop i :=
  fun h' => h (h'.trans (List.drop_suffix i l).isInfix)

theorem not_infix_splice {p a E b : List Char} {hc lc : Char}
    (hp : p ≠ []) (hEh : E.head? = some hc) (hEl : E.getLast? = some lc)
    (hch : hc ∉ p) (hcl : lc ∉ p) (hinf : ¬ p <:+: E)
    (h : ¬ p <:+: (a ++ b)) : ¬ p <:+: (a ++ E ++ b) := by
  intro h'
  obtain ⟨i, hi⟩ := infix_iff_occ.mp h'
  rcases occ_splice_cases hp hEh hEl hch hcl hinf hi with ⟨_, h2⟩ | ⟨_, h2⟩ <;>
    exact h (infix_iff_occ.mpr ⟨_, h2⟩)

/-- Claim C5 counterexample: a manifest whose PBXBuildFile end marker
appears before its begin marker — the begin marker has no matching end
marker following it in the text — is accepted: the run succeeds and the
manifest file is rewritten (entries are inserted before the end marker
wherever it is), instead of failing with a format error and leaving the file
untouched. -/
theorem claim_C5_counterexample :
    ((addMain wToks
      ⟨some (eBF ++ "\n".data ++ bBF ++ "\n".data ++ bFR ++ "\n".data ++ eFR ++
        "\n".data ++ bSP ++ "\n".data ++ fArr ++ "\n".data ++ clArr ++ "\n".data ++
        eSP ++ "\n".data), none⟩).2 = true) ∧
    (addMain wToks
      ⟨some (eBF ++ "\n".data ++ bBF ++ "\n".data ++ bFR ++ "\n".data ++ eFR ++
        "\n".data ++ bSP ++ "\n".data ++ fArr ++ "\n".data ++ clArr ++ "\n".data ++
        eSP ++ "\n".data), none⟩).1.manifest ≠
      some (eBF ++ "\n".data ++ bBF ++ "\n".data ++ bFR ++ "\n".data ++ eFR ++
        "\n".data ++ bSP ++ "\n".data ++ fArr ++ "\n".data ++ clArr ++ "\n".data ++
        eSP ++ "\n".data) := by
  decide

theorem addStage3_none_of (c2 : List Char) (refs : List ((List Char) × Info))
    (h : ¬ bSP <:+: c2 ∨ ¬ eSP <:+: c2 ∨ ¬ fArr <:+: c2 ∨ ¬ clArr <:+: c2) :
    addStage3 c2 refs = none := by
  rcases h with h | h | h | h
  · simp only [addStage3, findSubstr_eq_none h]
  · simp only [addStage3, findSubstr_eq_none h]
    cases findSubstr bSP c2 <;> rfl
  · simp only [addStage3]
    cases findSubstr bSP c2 with
    | none => rfl
    | some sss =>
      cases findSubstr eSP c2 with
      | none => rfl
      | some _ =>
        simp only [findFrom, findSubstr_eq_none (not_infix_drop h sss), Option.map_none']
  · simp only [addStage3]
    cases findSubstr bSP c2 with
    | none => rfl
    | some sss =>
      cases findSubstr eSP c2 with
      | none => rfl
      | some _ =>
        simp only [findFrom]
        cases hfa : findSubstr fArr (c2.drop sss) with
        | none => simp
        | some w =>
          simp only [Option.map_some',
            findSubstr_eq_none (not_infix_drop h (w + sss)), Option.map_none']

theorem addStage2_none_of (c1 : List Char) (refs : List ((List Char) × Info))
    (h : ¬ bFR <:+: c1 ∨ ¬ eFR <:+: c1) : addStage2 c1 refs = none := by
  rcases h with h | h
  · simp only [addStage2, findSubstr_eq_none h]
  · simp only [addStage2, findSubstr_eq_none h]
    cases findSubstr bFR c1 <;> rfl

theorem addStage2_none_of_stage3 (c1 : List Char) (refs : List ((List Char) × Info))
    (h : ∀ p2, addStage3 (c1.take p2 ++ blockR refs ++ c1.drop p2) refs = none) :
    addStage2 c1 refs = none := by
  simp only [addStage2]
  cases findSubstr bFR c1 with
  | none => rfl
  | some kb =>
    cases findSubstr eFR c1 with
    | none => rfl
    | some p2 => exact h p2

theorem addFiles_none_of (content : List Char) (files : List (List Char))
    (toks : Nat → List Char)
    (h : findSubstr bBF content = none ∨ findSubstr eBF content = none ∨
      ∀ p1, addStage2
        (content.take p1 ++ blockB (mkRefs files toks).1 ++ content.drop p1)
        (mkRefs files toks).1 = none) :
    addFiles content files toks = none := by
  rcases h with h | h | h
  · simp only [addFiles, h]
  · simp only [addFiles, h]
    cases findSubstr bBF content <;> rfl
  · simp only [addFiles]
    cases findSubstr bBF content with
    | none => rfl
    | some k0 =>
      cases findSubstr eBF content with
      | none => rfl
      | some p1 => exact h p1

/-- Claim C5 (amended): when any of the section markers the code checks is
missing from the manifest (and, for the markers sought after a splice has
happened, also absent from the generated entry blocks), the run fails and
the manifest file is not modified at all — no partial write is attempted.
The code checks only marker presence, not order: a begin marker appearing
after its end marker is accepted and the file is rewritten (see the
counterexample). -/
theorem claim_C5_amended (content : List Char) (files : List (List Char))
    (toks : Nat → List Char) (fs : FS)
    (hne : files ≠ [])
    (hm : fs.manifest = some content)
    (hmiss :
      (¬ bBF <:+: content) ∨
      (¬ eBF <:+: content) ∨
      (¬ bFR <:+: content ∧ ¬ bFR <:+: blockB (mkRefs files toks).1) ∨
      (¬ eFR <:+: content ∧ ¬ eFR <:+: blockB (mkRefs files toks).1) ∨
      (¬ bSP <:+: content ∧ ¬ bSP <:+: blockB (mkRefs files toks).1 ∧
        ¬ bSP <:+: blockR (mkRefs files toks).1) ∨
      (¬ eSP <:+: content ∧ ¬ eSP <:+: blockB (mkRefs files toks).1 ∧
        ¬ eSP <:+: blockR (mkRefs files toks).1) ∨
      (¬ fArr <:+: content ∧ ¬ fArr <:+: blockB (mkRefs files toks).1 ∧
        ¬ fArr <:+: blockR (mkRefs files toks).1) ∨
      (¬ clArr <:+: content ∧ ¬ clArr <:+: blockB (mkRefs files toks).1 ∧
        ¬ clArr <:+: blockR (mkRefs files toks).1)) :
    addFiles content files toks = none ∧ addRun files toks fs = (fs, false) := by
  have hrne : (mkRefs files toks).1 ≠ [] := mkRefs_fst_ne_nil toks hne
  have hBh := blockB_head hrne
  have hBl := blockB_last hrne
  have hRh := blockR_head hrne
  have hRl := blockR_last hrne
  have hnone : addFiles content files toks = none := by
    rcases hmiss with h | h | ⟨ha, hb⟩ | ⟨ha, hb⟩ | ⟨ha, hb, hc⟩ | ⟨ha, hb, hc⟩ |
      ⟨ha, hb, hc⟩ | ⟨ha, hb, hc⟩
    · exact addFiles_none_of _ _ _ (Or.inl (findSubstr_eq_none h))
    · exact addFiles_none_of _ _ _ (Or.inr (Or.inl (findSubstr_eq_none h)))
    · refine addFiles_none_of _ _ _ (Or.inr (Or.inr (fun p1 => ?_)))
      refine addStage2_none_of _ _ (Or.inl ?_)
      exact not_infix_splice (by decide) hBh hBl (by decide) (by decide) hb
        (by rw [List.take_append_drop]; exact ha)
    · refine addFiles_none_of _ _ _ (Or.inr (Or.inr (fun p1 => ?_)))
      refine addStage2_none_of _ _ (Or.inr ?_)
      exact not_infix_splice (by decide) hBh hBl (by decide) (by decide) hb
        (by rw [List.take_append_drop]; exact ha)
    · refine addFiles_none_of _ _ _ (Or.inr (Or.inr (fun p1 => ?_)))
      refine addStage2_none_of_stage3 _ _ (fun p2 => ?_)
      refine addStage3_none_of _ _ (Or.inl ?_)
      have hm1 : ¬ bSP <:+:
          (content.take p1 ++ blockB (mkRefs files toks).1 ++ content.drop p1) :=
        not_infix_splice (by decide) hBh hBl (by decide) (by decide) hb
          (by rw [List.take_append_drop]; exact ha)
      exact not_infix_splice (by decide) hRh hRl (by decide) (by decide) hc
        (by rw [List.take_append_drop]; exact hm1)
    · refine addFiles_none_of _ _ _ (Or.inr (Or.inr (fun p1 => ?_)))
      refine addStage2_none_of_stage3 _ _ (fun p2 => ?_)
      refine addStage3_none_of _ _ (Or.inr (Or.inl ?_))
      have hm1 : ¬ eSP <:+:
          (content.take p1 ++ blockB (mkRefs files toks).1 ++ content.drop p1) :=
        not_infix_splice (by decide) hBh hBl (by decide) (by decide) hb
          (by rw [List.take_append_drop]; exact ha)
      exact not_infix_splice (by decide) hRh hRl (by decide) (by decide) hc
        (by rw [List.take_append_drop]; exact hm1)
    · refine addFiles_none_of _ _ _ (Or.inr (Or.inr (fun p1 => ?_)))
      refine addStage2_none_of_stage3 _ _ (fun p2 => ?_)
      refine addStage3_none_of _ _ (Or.inr (Or.inr (Or.inl ?_)))
      have hm1 : ¬ fArr <:+:
          (content.take p1 ++ blockB (mkRefs files toks).1 ++ content.drop p1) :=
        not_infix_splice (by decide) hBh hBl (by decide) (by decide) hb
          (by rw [List.take_append_drop]; exact ha)
      exact not_infix_splice (by decide) hRh hRl (by decide) (by decide) hc
        (by rw [List.take_append_drop]; exact hm1)
    · refine addFiles_none_of _ _ _ (Or.inr (Or.inr (fun p1 => ?_)))
      refine addStage2_none_of_stage3 _ _ (fun p2 => ?_)
      refine addStage3_none_of _ _ (Or.inr (Or.inr (Or.inr ?_)))
      have hm1 : ¬ clArr <:+:
          (content.take p1 ++ blockB (mkRefs files toks).1 ++ content.drop p1) :=
        not_infix_splice (by decide) hBh hBl (by decide) (by decide) hb
          (by rw [List.take_append_drop]; exact ha)
      exact not_infix_splice (by decide) hRh hRl (by decide) (by decide) hc
        (by rw [List.take_append_drop]; exact hm1)
  refine ⟨hnone, ?_⟩
  simp only [addRun, hm, hnone]

theorem claim_C5_amended_witness :
    addFiles "no markers at all".data ["Foo.swift".data] wToks = none ∧
    addRun ["Foo.swift".data] wToks ⟨some "no markers at all".data, some ['b']⟩ =
      (⟨some "no markers at all".data, some ['b']⟩, false) :=
  claim_C5_amended "no markers at all".data ["Foo.swift".data] wToks
    ⟨some "no markers at all".data, some ['b']⟩ (by decide) rfl
    (Or.inl (by decide))

/-! ### Claim C6: the tracked-set resolver -/

/-- Formalisation of the claim's wording (used as the refinement reference
for C6): a file counts as tracked when its base name or its full relative
path appears as some FileReference's `relativePath` or display name. -/
def trackedSpec (f : List Char) (objs : List PBXObj) : Prop :=
  ∃ o ∈ objs, o.path = some (basename f) ∨ o.name = some (basename f) ∨
    o.path = some f ∨ o.name = some f

/-- Claim C6 counterexample: a FileReference whose display name is
`Foo.swift` but whose path is `Other.swift` — the claim classifies the
file-system file `Foo.swift` as tracked (its base name appears as a display
name), but the code never consults display names: it classifies the file as
untracked and schedules it for insertion. -/
theorem claim_C6_counterexample :
    trackedSpec "Foo.swift".data [⟨some "Foo.swift".data, some "Other.swift".data⟩] ∧
    filesToAdd ["Foo.swift".data]
      (getFilesInProject [⟨some "Foo.swift".data, some "Other.swift".data⟩]) =
      ["Foo.swift".data] := by
  constructor
  · exact ⟨⟨some "Foo.swift".data, some "Other.swift".data⟩, by simp, by
      right; left; rfl⟩
  · decide

/-- Claim C6 (amended): the resolver classifies a file as untracked (adds
it) exactly when neither its base name nor its full relative path equals a
collected path value, comparing case-sensitively as exact strings; the
collected values are precisely the non-empty `path` attributes of the
PBXFileReference objects — display names are never consulted. -/
theorem claim_C6_amended (f : List Char) (allFiles : List (List Char))
    (objs : List PBXObj) :
    (f ∈ filesToAdd allFiles (getFilesInProject objs) ↔
      f ∈ allFiles ∧ ¬ (basename f ∈ getFilesInProject objs ∨
        f ∈ getFilesInProject objs)) ∧
    (∀ p, p ∈ getFilesInProject objs ↔ ∃ o ∈ objs, o.path = some p ∧ p ≠ []) := by
  constructor
  · simp only [filesToAdd, List.mem_filter, decide_eq_true_eq]
    tauto
  · intro p
    simp only [getFilesInProject, List.mem_filter, List.mem_filterMap,
      decide_eq_true_eq]
    constructor
    · rintro ⟨⟨o, ho, hp⟩, hne⟩
      exact ⟨o, ho, hp, hne⟩
    · rintro ⟨o, ho, hp, hne⟩
      exact ⟨⟨o, ho, hp⟩, hne⟩

/-! ### Claim C7: path rewriting -/

theorem replaceAllGo_not_contains {p r : List Char} (_hp : p ≠ []) :
    ∀ (fuel : Nat) (l : List Char), ¬ p <:+: l → replaceAllGo p r fuel l = l := by
  intro fuel
  induction fuel with
  | zero => intro l _; rfl
  | succ f ih =>
    intro l h
    cases l with
    | nil => rfl
    | cons c t =>
      rw [replaceAllGo, if_neg (fun hand =>
        h (List.isPrefixOf_iff_prefix.mp hand.1).isInfix)]
      rw [ih t (fun h' => h (h'.trans (List.suffix_cons c t).isInfix))]

theorem replaceAllGo_step {p r : List Char} (hp : p ≠ []) :
    ∀ (fuel : Nat) (l : List Char) (j : Nat), l.length ≤ fuel →
      findSubstr p l = some j →
      replaceAllGo p r fuel l =
        l.take j ++ r ++ replaceAllGo p r (fuel - j - 1) (l.drop (j + p.length)) := by
  intro fuel
  induction fuel with
  | zero =>
    intro l j hl hf
    have hnil : l = [] := List.length_eq_zero.mp (Nat.le_zero.mp hl)
    subst hnil
    rw [findSubstr_nil] at hf
    split at hf
    · next hpre =>
      exact absurd (List.prefix_nil.mp (List.isPrefixOf_iff_prefix.mp hpre)) hp
    · exact absurd hf (by simp)
  | succ f ih =>
    intro l j hl hf
    cases l with
    | nil =>
      rw [findSubstr_nil] at hf
      split at hf
      · next hpre =>
        exact absurd (List.prefix_nil.mp (List.isPrefixOf_iff_prefix.mp hpre)) hp
      · exact absurd hf (by simp)
    | cons c t =>
      have hplen : 0 < p.length := List.length_pos.mpr hp
      rw [findSubstr_cons] at hf
      split at hf
      · next hpre =>
        cases hf
        rw [replaceAllGo, if_pos ⟨hpre, hp⟩]
        have h1 : (c :: t).drop (0 + p.length) = t.drop (p.length - 1) := by
          have h2 : 0 + p.length = (p.length - 1) + 1 := by omega
          rw [h2, List.drop_succ_cons]
        have h3 : f + 1 - 0 - 1 = f := by omega
        rw [h1, h3]
        simp
      · next hpre =>
        rw [Option.map_eq_some'] at hf
        obtain ⟨j', hj', rfl⟩ := hf
        rw [replaceAllGo, if_neg (fun hand => hpre hand.1)]
        rw [ih t j' (by simp at hl; omega) hj']
        have h2 : (c :: t).drop (j' + 1 + p.length) = t.drop (j' + p.length) := by
          have h2' : j' + 1 + p.length = (j' + p.length) + 1 := by omega
          rw [h2', List.drop_succ_cons]
        have h3 : f + 1 - (j' + 1) - 1 = f - j' - 1 := by omega
        rw [List.take_succ_cons, h2, h3]
        simp

theorem replaceAll_single {p r l : List Char} {j : Nat} (hp : p ≠ [])
    (hfind : findSubstr p l = some j) (hrest : ¬ p <:+: l.drop (j + p.length)) :
    replaceAll p r l = l.take j ++ r ++ l.drop (j + p.length) := by
  rw [replaceAll, replaceAllGo_step hp l.length l j le_rfl hfind,
    replaceAllGo_not_contains hp _ _ hrest]

theorem applyMappings_single (o n c : List Char) :
    applyMappings [(o, n)] c =
      if (findSubstr (mkPat o) c).isSome then (replaceAll (mkPat o) (mkPat n) c, 1)
      else (c, 0) := by
  simp [applyMappings]

/-- Claim C7 counterexample: with two FileReference records sharing the
quoted path value `HomeView.swift`, the rewrite loop replaces the path
field of both records (Python `str.replace` replaces every occurrence), not
only that of "the" matching record; and on a manifest matching no mapping
the script completes normally, reporting zero changes and writing nothing,
instead of failing with a NotFoundError. -/
theorem claim_C7_counterexample :
    (applyMappings FILE_MAPPINGS
      ("AAA1 = \x7bisa = PBXFileReference; path = \"HomeView.swift\"; \x7d;\nBBB2 = \x7bisa = PBXFileReference; path = \"HomeView.swift\"; \x7d;\n".data) =
      ("AAA1 = \x7bisa = PBXFileReference; path = \"Features/Home/HomeView.swift\"; \x7d;\nBBB2 = \x7bisa = PBXFileReference; path = \"Features/Home/HomeView.swift\"; \x7d;\n".data,
        1)) ∧
    ((applyMappings FILE_MAPPINGS
      ("AAA1 = \x7bisa = PBXFileReference; path = \"HomeView.swift\"; \x7d;\nBBB2 = \x7bisa = PBXFileReference; path = \"HomeView.swift\"; \x7d;\n".data)).1 ≠
      ("AAA1 = \x7bisa = PBXFileReference; path = \"Features/Home/HomeView.swift\"; \x7d;\nBBB2 = \x7bisa = PBXFileReference; path = \"HomeView.swift\"; \x7d;\n".data)) ∧
    fixRun FILE_MAPPINGS ⟨some "nothing relevant here".data, none⟩ =
      (⟨some "nothing relevant here".data, none⟩, true, 0) := by
  decide

/-- Claim C7 (amended): when the caller-supplied old path value matches
exactly one place in the text (the canonical case of one record per path),
the rewrite changes only that record's path field value — every byte
outside the matched `path = "old";` fragment, in particular all identifiers
and all PBXBuildFile/membership records, is unchanged.  When several
records share the path value, all of them are rewritten, and when no
record's current path matches, the run completes normally with zero changes
and the manifest untouched — there is no NotFoundError. -/
theorem claim_C7_amended (o n x y : List Char)
    (hfind : findSubstr (mkPat o) (x ++ mkPat o ++ y) = some x.length)
    (hrest : ¬ mkPat o <:+: y) :
    applyMappings [(o, n)] (x ++ mkPat o ++ y) = (x ++ mkPat n ++ y, 1) ∧
    (∀ c, ¬ mkPat o <:+: c → applyMappings [(o, n)] c = (c, 0)) ∧
    (∀ c (fs : FS), fs.manifest = some c → ¬ mkPat o <:+: c →
      fixRun [(o, n)] fs = (fs, true, 0)) := by
  have hp : mkPat o ≠ [] := by simp [mkPat]
  have hnomatch : ∀ c, ¬ mkPat o <:+: c → applyMappings [(o, n)] c = (c, 0) := by
    intro c hc
    rw [applyMappings_single, if_neg (by rw [findSubstr_eq_none hc]; simp)]
  refine ⟨?_, hnomatch, ?_⟩
  · rw [applyMappings_single, if_pos (by rw [hfind]; rfl)]
    have hdrop : (x ++ mkPat o ++ y).drop (x.length + (mkPat o).length) = y :=
      List.drop_left' (by simp)
    have htake : (x ++ mkPat o ++ y).take x.length = x := by
      rw [List.append_assoc]
      exact List.take_left' rfl
    rw [replaceAll_single hp hfind (by rw [hdrop]; exact hrest), htake, hdrop]
  · intro c fs hm hc
    simp only [fixRun, hm, hnomatch c hc]
    simp

theorem claim_C7_amended_witness :
    (applyMappings [("A.swift".data, "G/A.swift".data)]
      ("K ".data ++ mkPat "A.swift".data ++ " rest".data) =
      ("K ".data ++ mkPat "G/A.swift".data ++ " rest".data, 1)) ∧
    (∀ c, ¬ mkPat "A.swift".data <:+: c →
      applyMappings [("A.swift".data, "G/A.swift".data)] c = (c, 0)) ∧
    (∀ c (fs : FS), fs.manifest = some c → ¬ mkPat "A.swift".data <:+: c →
      fixRun [("A.swift".data, "G/A.swift".data)] fs = (fs, true, 0)) :=
  claim_C7_amended "A.swift".data "G/A.swift".data "K ".data " rest".data
    (by decide) (by decide)

end DocAI
